import Mathlib

/-!
# nagsms: intake service (nagsms-receiver.go) and delivery worker (nagsms-sender.go)

A shallow embedding of the two Go programs of the repository.

* A Go `string` is modelled as a list of characters (`GoString`).  The only
  separator the programs use is the one-byte string `" "`, so splitting by
  bytes and splitting by characters agree.
* Calls into the outside world (the random source, the Redis queue, the Oracle
  sink, the transport dial) take their outcome from an explicit environment and
  leave an event in an explicit trace.
* A run-time panic of Go (index out of range, call on a nil interface) is an
  explicit `Panic` result.
* The random source of `randString` is a stream of words; the streams a source
  made by `rand.NewSource` returns are those obeying the recurrence of its
  generator (`IsRngSource`).
* The goroutine stack of the worker holds a bounded number of nested
  activations of `main` (`Env.stackLimit`); a call beyond it ends the process.
-/

namespace Nagsms

/-- The Go type `string`. -/
abbrev GoString := List Char

/-- Run-time panics of the Go code that the model tracks. -/
inductive Panic where
  | indexOutOfRange
  | sliceOutOfRange
  | nilDereference
  deriving DecidableEq, Repr

/-! ## The part of package `strings` that the worker uses -/

namespace strings

/-- Go `strings.Split(s, sep)` for a one-byte separator: all substrings between
the separators; a string without separator gives the one-element slice `[s]`
(so `Split("", " ")` is `[""]`). -/
def Split : GoString → Char → List GoString
  | [], _ => [[]]
  | c :: cs, sep =>
    if c = sep then [] :: Split cs sep
    else
      match Split cs sep with
      | [] => [[c]]
      | f :: fs => (c :: f) :: fs

/-- Go `strings.Join(elems, sep)`. -/
def Join : List GoString → GoString → GoString
  | [], _ => []
  | [a], _ => a
  | a :: b :: rest, sep => a ++ sep ++ Join (b :: rest) sep

end strings

/-- Go index expression `data[i]` on a slice: panics when `i` is out of range. -/
def index {α : Type} (data : List α) (i : Nat) : Except Panic α :=
  match data.get? i with
  | some x => .ok x
  | none => .error .indexOutOfRange

/-- Go slice expression `data[lo:]`: panics when `lo` exceeds the length. -/
def sliceFrom {α : Type} (data : List α) (lo : Nat) : Except Panic (List α) :=
  if lo ≤ data.length then .ok (data.drop lo) else .error .sliceOutOfRange

/-! ## Envelope codec -/

/-- The request data built by `handler`: `data := tel[0] + " " + msg[0]`. -/
def handlerData (tel0 msg0 : GoString) : GoString :=
  tel0 ++ [' '] ++ msg0

/-- The record built by `putQueue`: `stringdata := rnd + " " + data`. -/
def stringdata (rnd data : GoString) : GoString :=
  rnd ++ [' '] ++ data

/-- The decoding branch of `redisPop` (taken when `job != ""`):
`data := strings.Split(job, " "); tel = data[1]; msg = strings.Join(data[2:], " ")`. -/
def redisPopDecode (job : GoString) : Except Panic (GoString × GoString) :=
  let data := strings.Split job ' '
  match index data 1 with
  | .error p => .error p
  | .ok tel =>
    match sliceFrom data 2 with
    | .error p => .error p
    | .ok rest => .ok (tel, strings.Join rest [' '])

/-! ## Trace token generator (nagsms-receiver.go) -/

/-- The constant `letterBytes`. -/
def letterBytes : GoString := "abcdefghijklmnopqrstuvwxyzABCDEFGHIJKLMNOPQRSTUVWXYZ-".toList

/-- The constant `letterIdxBits`: 6 bits to represent a letter index. -/
def letterIdxBits : Nat := 6

/-- The constant `letterIdxMask = 1<<letterIdxBits - 1`. -/
def letterIdxMask : Nat := (1 <<< letterIdxBits) - 1

/-- The constant `letterIdxMax = 63 / letterIdxBits`. -/
def letterIdxMax : Nat := 63 / letterIdxBits

/-- The `k`-th call of `src.Int63()`: a non-negative 63-bit integer.  The random
source is the stream `src` of the values it hands out. -/
def Int63 (src : Nat → Nat) (k : Nat) : Nat := src k % 2 ^ 63

/-- The `for` loop of `randString`.  `fuel` bounds the number of iterations run,
`k` counts the calls of `src.Int63()` made so far; the loop itself has no bound,
so running out of fuel (`none`) stands for an iteration count not yet reached. -/
def randStringLoop (src : Nat → Nat) :
    Nat → Int → Nat → Nat → Nat → List Char → Option (List Char)
  | 0, i, _, _, _, b => if i ≥ 0 then none else some b
  | fuel + 1, i, cache, remain, k, b =>
    if i ≥ 0 then
      let refill := decide (remain = 0)
      let cache1 := if refill then Int63 src k else cache
      let remain1 := if refill then letterIdxMax else remain
      let k1 := if refill then k + 1 else k
      let idx := cache1 &&& letterIdxMask
      if h : idx < letterBytes.length then
        randStringLoop src fuel (i - 1) (cache1 >>> letterIdxBits) (remain1 - 1) k1
          (b.set i.toNat letterBytes[idx])
      else
        randStringLoop src fuel i (cache1 >>> letterIdxBits) (remain1 - 1) k1 b
    else some b

/-- The function `randString(n)`: `b := make([]byte, n)`, the loop started with
`i, cache, remain := n-1, src.Int63(), letterIdxMax`, then `string(b)`. -/
def randString (src : Nat → Nat) (fuel : Nat) (n : Nat) : Option GoString :=
  randStringLoop src fuel ((n : Int) - 1) (Int63 src 0) letterIdxMax 1
    (List.replicate n (Char.ofNat 0))

/-- The `j`-th 6-bit group the loop of `randString` looks at: each value of the
source gives `letterIdxMax` groups, low bits first. -/
def group (src : Nat → Nat) (j : Nat) : Nat :=
  (Int63 src (j / letterIdxMax) >>> (letterIdxBits * (j % letterIdxMax))) &&& letterIdxMask

/-- How many of the groups `j, ..., j + N - 1` are a valid index of `letterBytes`. -/
def acceptedFrom (src : Nat → Nat) (j N : Nat) : Nat :=
  List.countP (fun t => decide (group src t < letterBytes.length)) (List.range' j N)

/-- Invariant of the loop of `randString` when it is about to look at group `j`:
either the cache is used up at a value boundary, or it holds the rest of value
`j / letterIdxMax`. -/
def LoopAt (src : Nat → Nat) (j cache remain k : Nat) : Prop :=
  (remain = 0 ∧ j % letterIdxMax = 0 ∧ k = j / letterIdxMax) ∨
  (0 < remain ∧ remain + j % letterIdxMax = letterIdxMax ∧ k = j / letterIdxMax + 1 ∧
    cache = Int63 src (j / letterIdxMax) >>> (letterIdxBits * (j % letterIdxMax)))

/-- The constant `rngLen` of the generator of package `math/rand`. -/
def rngLen : Nat := 607

/-- The constant `rngTap` of the generator of package `math/rand`. -/
def rngTap : Nat := 273

/-- The streams that a source made by `rand.NewSource(seed)` returns.  Its
`Uint64()` steps `tap` and `feed` down a ring `vec` of `rngLen` words, `feed`
starting `rngLen - rngTap` above `tap`, and returns and stores
`vec[feed] + vec[tap]` in 64-bit arithmetic; `Int63()` masks the result to 63
bits (`Int63` above).  So the `k + rngLen`-th word returned is the sum of the
`k`-th and the `k + (rngLen - rngTap)`-th, whatever the seed has put in `vec`. -/
def IsRngSource (src : Nat → Nat) : Prop :=
  ∀ k, src (k + rngLen) = (src k + src (k + (rngLen - rngTap))) % 2 ^ 64

/-- The words of the generator in the order it reads and writes them: first the
`rngLen` words `vec` that the seed has put in the ring, then the sums. -/
def lagFib (vec : Nat → Nat) (n : Nat) : Nat :=
  if h : n < rngLen then vec n
  else (lagFib vec (n - rngLen) + lagFib vec (n - rngTap)) % 2 ^ 64
termination_by n
decreasing_by
  all_goals simp only [rngLen, rngTap] at *
  all_goals omega

/-- The `k`-th word returned by the generator whose ring the seed has filled
with `vec`. -/
def rngStream (vec : Nat → Nat) (k : Nat) : Nat := lagFib vec (k + rngLen)

/-- A filling of the ring. -/
def sampleVec : Nat → Nat := fun i => (i + 1) * 11400714819323198485 % 2 ^ 64

/-- A source whose values have the groups 63, 0, 52, 53, 26, 0, 0, 0, 0, 0. -/
def sampleSrc : Nat → Nat := fun _ => 63 + 52 * 64 ^ 2 + 53 * 64 ^ 3 + 26 * 64 ^ 4

/-! ## Pool dial function (both programs) -/

/-- Errors of the Redis client. -/
inductive RedisErr where
  | dial
  | auth
  deriving DecidableEq, Repr

/-- What the `Dial` closure does besides returning. -/
inductive DialEvent where
  | logError (e : RedisErr)
  | logDebug
  | doAuth (password : GoString)
  | connClose
  deriving DecidableEq, Repr

/-- The value returned by `Dial`: whether the connection is non-nil, and the error. -/
structure DialReturn where
  conn : Bool
  err : Option RedisErr
  deriving DecidableEq, Repr

/-- The `Dial` closure of `redisCon`.  `dialOk` is the outcome of
`redis.Dial("tcp", rhost)` (on failure it returns a nil connection and an
error), `authOk` the outcome of `c.Do("AUTH", password)`. -/
def Dial (dialOk : Bool) (password : GoString) (authOk : Bool) :
    List DialEvent × Except Panic DialReturn :=
  -- c, err := redis.Dial("tcp", rhost)
  let c : Bool := dialOk
  let err : Option RedisErr := if dialOk then none else some .dial
  let ev1 : List DialEvent := if err ≠ none then [.logError .dial] else [.logDebug]
  if password ≠ [] then
    -- c.Do("AUTH", password)
    if c then
      if authOk then (ev1 ++ [.doAuth password], .ok ⟨c, err⟩)
      else (ev1 ++ [.doAuth password, .logError .auth, .connClose], .ok ⟨false, some .auth⟩)
    else (ev1, .error .nilDereference)
  else (ev1 ++ [.logDebug], .ok ⟨c, err⟩)

/-! ## Events and world of the intake and of the worker -/

/-- Observable actions of the two programs. -/
inductive Event where
  | ping (ok : Bool)
  | logFatal
  | poolGet
  | connClose
  | pop (job : Option GoString)
  | push (record : GoString) (ok : Bool)
  | logError
  | logDebug
  | enterMain
  | sleep (seconds : Nat)
  | exec (arg1 arg2 : GoString) (ok : Bool)
  | panic (p : Panic)
  | stackOverflow
  deriving DecidableEq, Repr

/-- Outcomes of the outside world: the `k`-th `db.Ping()` succeeds, the `k`-th
`q.Pop()` returns a job (`none`: an error), the `k`-th `db.Exec` succeeds; and
`stackLimit`, the number of nested activations of `main` that the goroutine
stack can hold (the Go runtime caps the stack size). -/
structure Env where
  ping : Nat → Bool
  pop : Nat → Option GoString
  exec : Nat → Bool
  stackLimit : Nat

/-- State of a process: calls made so far, connections leased from `RedisPool`,
activations of `main` on the stack, and the trace of events. -/
structure World where
  nPing : Nat
  nPop : Nat
  nExec : Nat
  leased : Nat
  depth : Nat
  trace : List Event
  deriving DecidableEq, Repr

/-- Append an event to the trace. -/
def World.emit (w : World) (e : Event) : World :=
  { w with trace := w.trace ++ [e] }

/-- The call `RedisPool.Get()`: one more connection is leased. -/
def World.get (w : World) : World :=
  { w.emit .poolGet with leased := w.leased + 1 }

/-- The call `c.Close()` on a pooled connection: it goes back to the pool. -/
def World.close (w : World) : World :=
  { w.emit .connClose with leased := w.leased - 1 }

/-! ## Intake service (nagsms-receiver.go) -/

/-- The fields of `conf.RedisConf` the handler reads. -/
structure RedisConf where
  RedisHost : GoString
  RedisPort : GoString
  RedisQueue : GoString

/-- What `handler` does: a log line, a write to the response, or the start of
the goroutine `go putQueue(rhost, qname, data)`. -/
inductive HandlerEffect where
  | logMissing (param : GoString)
  | responseWrite (body : GoString)
  | goPutQueue (rhost qname data : GoString)
  deriving DecidableEq, Repr

/-- The function `handler`.  `query` is `r.URL.Query()`, a map from a parameter
name to its values; a lookup of an absent key gives `ok = false`. -/
def handler (conf : RedisConf) (query : GoString → Option (List GoString)) :
    List HandlerEffect :=
  let tel := (query "tel".toList).getD []
  let ok := (query "tel".toList).isSome
  if !ok || tel.length < 1 then [.logMissing "tel".toList]
  else
    let msg := (query "msg".toList).getD []
    let ok := (query "msg".toList).isSome
    if !ok || msg.length < 1 then [.logMissing "msg".toList]
    else
      let data := handlerData (tel.headD []) (msg.headD [])
      [.goPutQueue (conf.RedisHost ++ [':'] ++ conf.RedisPort) conf.RedisQueue data]

/-- The function `putQueue`: lease a connection, draw the token, push
`rnd + " " + data`, log, and release the connection (deferred `c.Close()`).
`pushOk` is the outcome of `q.Push`; `none` when `randString` has not returned
within `fuel` iterations. -/
def putQueue (src : Nat → Nat) (fuel : Nat) (pushOk : Bool) (data : GoString) (w : World) :
    Option World :=
  let w1 := w.get
  match randString src fuel 12 with
  | none => none
  | some rnd =>
    let w2 := w1.emit (.push (stringdata rnd data) pushOk)
    let w3 := if pushOk then w2.emit .logDebug else w2.emit .logError
    some (w3.emit .logDebug).close

/-- The query of a request `?tel=<tel>&msg=<msg>`. -/
def queryOf (tel msg : GoString) : GoString → Option (List GoString) :=
  fun key =>
    if key = "tel".toList then some [tel]
    else if key = "msg".toList then some [msg]
    else none

/-- The query of a request that carries only `msg`. -/
def queryMsgOnly (msg : GoString) : GoString → Option (List GoString) :=
  fun key => if key = "msg".toList then some [msg] else none

/-- A configuration of the queue. -/
def sampleConf : RedisConf :=
  { RedisHost := "localhost".toList, RedisPort := "6379".toList, RedisQueue := "nagsms".toList }

/-! ## Delivery worker (nagsms-sender.go) -/

/-- The bind variables of `query`: `vTextSMS := :1` and `vMsidn := :2`. -/
structure SinkCall where
  vTextSMS : GoString
  vMsidn : GoString
  deriving DecidableEq, Repr

/-- How `db.Exec(query, arg1, arg2)` binds its arguments in `query`. -/
def queryBind (arg1 arg2 : GoString) : SinkCall :=
  { vTextSMS := arg1, vMsidn := arg2 }

/-- The sink calls of a trace, in order. -/
def sinkCalls : List Event → List SinkCall
  | [] => []
  | .exec a1 a2 _ :: es => queryBind a1 a2 :: sinkCalls es
  | _ :: es => sinkCalls es

/-- How a run of the worker stands: cut at the head of the loop of `sendSms`
with the sink probe as next action, exited through `log.Fatal`, crashed by a
panic, or ended by the runtime because the stack is full. -/
inductive Status where
  | atCheckSink
  | exited
  | panicked
  | stackOverflow
  deriving DecidableEq, Repr

/-- A run of the worker cut after a number of loop iterations. -/
structure Run where
  world : World
  status : Status
  deriving DecidableEq, Repr

/-- The function `send2oracle(msg, tel)`: `db.Exec(query, msg, tel)`, then a log line. -/
def send2oracle (env : Env) (msg tel : GoString) (w : World) : World :=
  let ok := env.exec w.nExec
  let w1 := { w.emit (.exec msg tel ok) with nExec := w.nExec + 1 }
  if ok then w1.emit .logDebug else w1.emit .logError

/-- The function `redisPop`.  `main` is the re-entry `main()`, which never returns:
`sendSms` is a `for` loop without exit, left only when the process ends.  So
either the run ends inside `redisPop` (left) or `redisPop` returns `(tel, msg)`
(right).  The deferred `c.Close()` runs when `redisPop` returns. -/
def redisPop (env : Env) (main : World → Run) (w : World) :
    Run ⊕ (GoString × GoString × World) :=
  let w1 := w.get
  let r := env.pop w1.nPop
  let w2 := { w1.emit (.pop r) with nPop := w1.nPop + 1 }
  match r with
  | none => .inl (main (w2.emit .logError))
  | some job =>
    if job ≠ [] then
      match redisPopDecode job with
      | .error p => .inl ⟨w2.emit (.panic p), .panicked⟩
      | .ok (tel, msg) => .inr (tel, msg, w2.close)
    else .inr ([], [], (w2.emit (.sleep 1)).close)

/-- Entering `main()`: one more activation on the stack. -/
def World.enterMain (w : World) : World :=
  { w.emit .enterMain with depth := w.depth + 1 }

/-- The function `main` of the worker: it calls `sendSms()`, given here as the
run `sendSms` that follows.  The call needs a new activation of `main`,
`sendSms` and `redisPop` on the stack: when the stack already holds
`env.stackLimit` of them the runtime ends the process (stack overflow). -/
def main (sendSms : World → Run) (env : Env) (w : World) : Run :=
  if w.depth < env.stackLimit then sendSms w.enterMain
  else ⟨w.emit .stackOverflow, .stackOverflow⟩

/-- The function `sendSms`, cut after `fuel` iterations of its loop. -/
def sendSms (env : Env) : Nat → World → Run
  | 0, w => ⟨w, .atCheckSink⟩
  | fuel + 1, w =>
    let ok := env.ping w.nPing
    let w1 := { w.emit (.ping ok) with nPing := w.nPing + 1 }
    if ok then
      let w2 := w1.emit .logDebug
      -- msg, tel := redisPop()
      match redisPop env (main (sendSms env fuel) env) w2 with
      | .inl r => r
      | .inr (msg, tel, w3) =>
        -- send2oracle(tel, msg)
        sendSms env fuel (send2oracle env tel msg w3)
    else ⟨w1.emit .logFatal, .exited⟩

/-- A fresh process. -/
def World.init : World :=
  { nPing := 0, nPop := 0, nExec := 0, leased := 0, depth := 0, trace := [] }

/-- An environment in which the sink answers and every pop returns `r`, with a
stack for a million nested activations of `main`. -/
def constEnv (r : Option GoString) : Env :=
  { ping := fun _ => true, pop := fun _ => r, exec := fun _ => true, stackLimit := 1000000 }

theorem split_ne_nil (s : GoString) (sep : Char) : strings.Split s sep ≠ [] := by
  induction s with
  | nil => simp [strings.Split]
  | cons c cs ih =>
    unfold strings.Split
    split
    · simp
    · split <;> simp

/-- A field without separator followed by a separator is split off whole. -/
theorem split_append_sep (a rest : GoString) (sep : Char) (h : sep ∉ a) :
    strings.Split (a ++ sep :: rest) sep = a :: strings.Split rest sep := by
  induction a with
  | nil => simp [strings.Split]
  | cons c cs ih =>
    have hc : c ≠ sep := fun e => h (by simp [e])
    have hcs : sep ∉ cs := fun e => h (by simp [e])
    simp only [List.cons_append]
    rw [strings.Split, if_neg hc, ih hcs]

/-- A string without separator is one field. -/
theorem split_no_sep (a : GoString) (sep : Char) (h : sep ∉ a) :
    strings.Split a sep = [a] := by
  induction a with
  | nil => simp [strings.Split]
  | cons c cs ih =>
    have hc : c ≠ sep := fun e => h (by simp [e])
    have hcs : sep ∉ cs := fun e => h (by simp [e])
    rw [strings.Split, if_neg hc, ih hcs]

/-- Joining the fields of a string with the separator gives the string back. -/
theorem join_split (s : GoString) (sep : Char) :
    strings.Join (strings.Split s sep) [sep] = s := by
  induction s with
  | nil => simp [strings.Split, strings.Join]
  | cons c cs ih =>
    unfold strings.Split
    split
    · next hc =>
      cases hs : strings.Split cs sep with
      | nil => exact absurd hs (split_ne_nil cs sep)
      | cons f fs =>
        rw [hs] at ih
        simp [strings.Join, ih, hc]
    · next hc =>
      cases hs : strings.Split cs sep with
      | nil => exact absurd hs (split_ne_nil cs sep)
      | cons f fs =>
        rw [hs] at ih
        cases fs with
        | nil => simpa [strings.Join] using ih
        | cons g gs =>
          simp only [strings.Join] at ih ⊢
          simp [← ih]

/-- No field of a split contains the separator. -/
theorem split_fields_no_sep (s : GoString) (sep : Char) :
    ∀ f ∈ strings.Split s sep, sep ∉ f := by
  induction s with
  | nil => simp [strings.Split]
  | cons c cs ih =>
    unfold strings.Split
    split
    · intro f hf
      rcases List.mem_cons.1 hf with rfl | hf
      · simp
      · exact ih f hf
    · next hc =>
      cases hs : strings.Split cs sep with
      | nil => exact absurd hs (split_ne_nil cs sep)
      | cons g gs =>
        rw [hs] at ih
        intro f hf
        rcases List.mem_cons.1 hf with rfl | hf
        · intro hmem
          rcases List.mem_cons.1 hmem with e | hmem
          · exact hc e.symm
          · exact ih g (by simp) hmem
        · exact ih f (by simp [hf])

/-- Decoding a record built from a token and a destination without space. -/
theorem split_record (token destination body : GoString)
    (htok : ' ' ∉ token) (hdst : ' ' ∉ destination) :
    strings.Split (stringdata token (handlerData destination body)) ' '
      = token :: destination :: strings.Split body ' ' := by
  simp only [stringdata, handlerData, List.append_assoc, List.singleton_append]
  rw [split_append_sep token _ ' ' htok, split_append_sep destination _ ' ' hdst]

theorem decode_record (token destination body : GoString)
    (htok : ' ' ∉ token) (hdst : ' ' ∉ destination) :
    redisPopDecode (stringdata token (handlerData destination body))
      = .ok (destination, body) := by
  simp only [redisPopDecode, split_record token destination body htok hdst, index, sliceFrom]
  simp [join_split]

/-- C1. Round trip of the envelope codec: for a token and a destination without
space and any body, the record `token + " " + (destination + " " + body)` built
by `handler` and `putQueue` is non-empty, its first space-separated field is the
token, and the decoding of `redisPop` returns exactly the destination and the
body. -/
theorem envelope_round_trip (token destination body : GoString)
    (htok : ' ' ∉ token) (hdst : ' ' ∉ destination) :
    stringdata token (handlerData destination body) ≠ [] ∧
    (strings.Split (stringdata token (handlerData destination body)) ' ').head? = some token ∧
    redisPopDecode (stringdata token (handlerData destination body))
      = .ok (destination, body) := by
  refine ⟨by simp [stringdata], ?_, decode_record token destination body htok hdst⟩
  rw [split_record token destination body htok hdst]
  rfl

/-- C4 (as stated, refuted). A non-empty record with one field and no space has
fewer than three fields, and the decoding of `redisPop` panics on it: `data[1]`
is out of range. -/
theorem decode_one_field_panics :
    "OnlyOneField".toList ≠ [] ∧
    (strings.Split "OnlyOneField".toList ' ').length < 3 ∧
    redisPopDecode "OnlyOneField".toList = .error .indexOutOfRange :=
  ⟨by decide, by decide, rfl⟩

/-- C4 (amended). For every record with exactly two space-separated fields (such
a record is non-empty) the decoding of `redisPop` raises no panic and returns
the second field as destination and the empty string as body. -/
theorem decode_two_fields (job : GoString)
    (h2 : (strings.Split job ' ').length = 2) :
    job ≠ [] ∧ ∃ tel, (strings.Split job ' ').get? 1 = some tel ∧
      redisPopDecode job = .ok (tel, []) := by
  refine ⟨by rintro rfl; simp [strings.Split] at h2, ?_⟩
  match hs : strings.Split job ' ', h2 with
  | [a, b], _ =>
    exact ⟨b, rfl, by simp [redisPopDecode, hs, index, sliceFrom, strings.Join]⟩

/-- Witness of `decode_two_fields` at the record `"token 5551234"`. -/
theorem decode_two_fields_witness :
    (strings.Split "token 5551234".toList ' ').length = 2 ∧
    "token 5551234".toList ≠ [] ∧
    ∃ tel, (strings.Split "token 5551234".toList ' ').get? 1 = some tel ∧
      redisPopDecode "token 5551234".toList = .ok (tel, []) :=
  ⟨by decide, decode_two_fields "token 5551234".toList (by decide)⟩

/-- Witness of `envelope_round_trip`: a body with leading, repeated and trailing
spaces. -/
theorem envelope_round_trip_witness :
    ' ' ∉ "abcdefghijkl".toList ∧ ' ' ∉ "5551234".toList ∧
    stringdata "abcdefghijkl".toList
      (handlerData "5551234".toList " Server  down now ".toList) ≠ [] ∧
    (strings.Split (stringdata "abcdefghijkl".toList
      (handlerData "5551234".toList " Server  down now ".toList)) ' ').head?
      = some "abcdefghijkl".toList ∧
    redisPopDecode (stringdata "abcdefghijkl".toList
      (handlerData "5551234".toList " Server  down now ".toList))
      = .ok ("5551234".toList, " Server  down now ".toList) :=
  ⟨by decide, by decide,
    envelope_round_trip "abcdefghijkl".toList "5551234".toList " Server  down now ".toList
      (by decide) (by decide)⟩

/-! ## The delivery worker -/

theorem sinkCalls_append (xs ys : List Event) :
    sinkCalls (xs ++ ys) = sinkCalls xs ++ sinkCalls ys := by
  induction xs with
  | nil => rfl
  | cons e es ih => cases e <;> simp [sinkCalls, ih]

/-- A record with at least three fields decodes without panic, to field 1 and
the rejoined fields 2 and up. -/
theorem decode_three_fields (job : GoString) (h3 : 3 ≤ (strings.Split job ' ').length) :
    redisPopDecode job
      = .ok ((strings.Split job ' ').getD 1 [],
          strings.Join ((strings.Split job ' ').drop 2) [' ']) := by
  match hs : strings.Split job ' ', h3 with
  | a :: b :: c :: rest, _ => simp [redisPopDecode, hs, index, sliceFrom]

/-- C2. Sink argument order: when the sink probe succeeds and the pop returns a
non-empty record with at least three space-separated fields, one iteration of
`sendSms` decodes the record to destination (field 1) and body (fields 2 and up
rejoined) and adds exactly one sink call, whose first bind variable `vTextSMS`
is the body and whose second bind variable `vMsidn` is the destination; the
worker is then back at the sink probe. -/
theorem sendSms_sink_argument_order (env : Env) (w : World) (job : GoString)
    (hping : env.ping w.nPing = true) (hpop : env.pop w.nPop = some job)
    (hne : job ≠ []) (h3 : 3 ≤ (strings.Split job ' ').length) :
    redisPopDecode job
      = .ok ((strings.Split job ' ').getD 1 [],
          strings.Join ((strings.Split job ' ').drop 2) [' ']) ∧
    sinkCalls (sendSms env 1 w).world.trace
      = sinkCalls w.trace ++
          [{ vTextSMS := strings.Join ((strings.Split job ' ').drop 2) [' '],
             vMsidn := (strings.Split job ' ').getD 1 [] }] ∧
    (sendSms env 1 w).status = .atCheckSink := by
  have hd := decode_three_fields job h3
  refine ⟨hd, ?_, ?_⟩
  · simp only [sendSms, hping, redisPop, World.get, World.emit, hpop, hd, World.close,
      send2oracle]
    simp only [if_pos hne, if_true]
    split <;> simp [sinkCalls_append, sinkCalls, queryBind]
  · simp only [sendSms, hping, redisPop, World.get, World.emit, hpop, hd, World.close,
      send2oracle]
    simp only [if_pos hne, if_true]

/-- Witness of `sendSms_sink_argument_order` at the record
`"abcdefghijkl 5551234 Hello"`. -/
theorem sendSms_sink_argument_order_witness :
    (constEnv (some "abcdefghijkl 5551234 Hello".toList)).ping World.init.nPing = true ∧
    (constEnv (some "abcdefghijkl 5551234 Hello".toList)).pop World.init.nPop
      = some "abcdefghijkl 5551234 Hello".toList ∧
    "abcdefghijkl 5551234 Hello".toList ≠ [] ∧
    3 ≤ (strings.Split "abcdefghijkl 5551234 Hello".toList ' ').length ∧
    sinkCalls (sendSms (constEnv (some "abcdefghijkl 5551234 Hello".toList)) 1
        World.init).world.trace
      = [{ vTextSMS := "Hello".toList, vMsidn := "5551234".toList }] :=
  ⟨rfl, rfl, by decide, by decide,
    (sendSms_sink_argument_order (constEnv (some "abcdefghijkl 5551234 Hello".toList))
      World.init "abcdefghijkl 5551234 Hello".toList rfl rfl (by decide) (by decide)).2.1⟩

/-- C5 (the code at the failing input). The sink probe succeeds and the pop
returns the empty record without error: after the one-second sleep the
iteration goes on to `send2oracle` and calls `db.Exec` with an empty body and an
empty destination before the worker is back at the sink probe. -/
theorem empty_pop_invokes_sink :
    (sendSms (constEnv (some [])) 1 World.init).world.trace
      = [.ping true, .logDebug, .poolGet, .pop (some []), .sleep 1, .connClose,
          .exec [] [] true, .logDebug] ∧
    sinkCalls (sendSms (constEnv (some [])) 1 World.init).world.trace
      = [{ vTextSMS := [], vMsidn := [] }] ∧
    (sendSms (constEnv (some [])) 1 World.init).status = .atCheckSink := by
  decide

/-- C9 (the code at the failing input). The first pop fails: the worker is back
at the sink probe with the connection of the failed pop still leased (the
deferred `c.Close()` of `redisPop` has not run, `main()` having been entered
inside it), whereas after an empty pop or a decoded pop the count is back at
its start value. -/
theorem pop_error_leaks_connection :
    World.init.leased = 0 ∧
    (sendSms (constEnv none) 1 World.init).status = .atCheckSink ∧
    (sendSms (constEnv none) 1 World.init).world.leased = 1 ∧
    (sendSms (constEnv none) 1 World.init).world.trace
      = [.ping true, .logDebug, .poolGet, .pop none, .logError, .enterMain] ∧
    (sendSms (constEnv none) 2 World.init).world.leased = 2 ∧
    (sendSms (constEnv (some [])) 1 World.init).world.leased = 0 ∧
    (sendSms (constEnv (some "tok 5551234 Hello".toList)) 1 World.init).world.leased = 0 := by
  decide

/-- C10 (the code at the failing input). The transport dial fails and a password
is configured: `Dial` logs the error, goes on to `c.Do("AUTH", password)` on the
nil connection and panics, whatever the outcome of AUTH would be; with an empty
password the same dial failure is returned as an error. -/
theorem dial_failure_with_password_panics :
    Dial false "secret".toList true = ([.logError .dial], .error .nilDereference) ∧
    Dial false "secret".toList false = ([.logError .dial], .error .nilDereference) ∧
    Dial false [] true = ([.logError .dial, .logDebug], .ok ⟨false, some .dial⟩) :=
  ⟨rfl, rfl, rfl⟩

/-! ## The trace token generator -/

theorem letterBytes_length : letterBytes.length = 53 := by decide

theorem space_not_in_letterBytes : ' ' ∉ letterBytes := by decide

/-- One iteration of the loop of `randString` while `i = m - 1 ≥ 0`. -/
theorem randStringLoop_step (src : Nat → Nat) (fuel m cache remain k : Nat) (b : List Char)
    (hm : 1 ≤ m) :
    randStringLoop src (fuel + 1) ((m : Int) - 1) cache remain k b =
      if h : (if remain = 0 then Int63 src k else cache) &&& letterIdxMask
          < letterBytes.length then
        randStringLoop src fuel (((m - 1 : Nat) : Int) - 1)
          ((if remain = 0 then Int63 src k else cache) >>> letterIdxBits)
          ((if remain = 0 then letterIdxMax else remain) - 1)
          (if remain = 0 then k + 1 else k)
          (b.set (m - 1) (letterBytes[(if remain = 0 then Int63 src k else cache)
            &&& letterIdxMask]))
      else
        randStringLoop src fuel ((m : Int) - 1)
          ((if remain = 0 then Int63 src k else cache) >>> letterIdxBits)
          ((if remain = 0 then letterIdxMax else remain) - 1)
          (if remain = 0 then k + 1 else k) b := by
  have hi : ((m : Int) - 1) ≥ 0 := by omega
  have e1 : ((m : Int) - 1) - 1 = ((m - 1 : Nat) : Int) - 1 := by omega
  have e2 : ((m : Int) - 1).toNat = m - 1 := by omega
  rw [randStringLoop, if_pos hi]
  by_cases hr : remain = 0 <;> simp [hr, e1, e2]

/-- The loop of `randString` once `i < 0`. -/
theorem randStringLoop_done (src : Nat → Nat) (fuel cache remain k : Nat) (b : List Char) :
    randStringLoop src fuel ((0 : Nat) - 1 : Int) cache remain k b = some b := by
  cases fuel <;> simp [randStringLoop]

/-- Partial correctness of the loop of `randString`: with the positions from
`m` on already filled from `letterBytes` and `i = m - 1`, a result of the loop
has the length of `b` and all its characters in `letterBytes`. -/
theorem randStringLoop_sound (src : Nat → Nat) :
    ∀ (fuel m cache remain k : Nat) (b s : List Char),
      m ≤ b.length →
      (∀ (p : Nat) (hp : p < b.length), m ≤ p → b[p] ∈ letterBytes) →
      randStringLoop src fuel ((m : Int) - 1) cache remain k b = some s →
      s.length = b.length ∧ ∀ c ∈ s, c ∈ letterBytes := by
  have done : ∀ (fuel cache remain k : Nat) (b s : List Char),
      (∀ (p : Nat) (hp : p < b.length), 0 ≤ p → b[p] ∈ letterBytes) →
      randStringLoop src fuel ((0 : Nat) - 1 : Int) cache remain k b = some s →
      s.length = b.length ∧ ∀ c ∈ s, c ∈ letterBytes := by
    intro fuel cache remain k b s hgood h
    rw [randStringLoop_done] at h
    injection h with h
    subst h
    refine ⟨rfl, fun c hc => ?_⟩
    obtain ⟨p, hp, rfl⟩ := List.getElem_of_mem hc
    exact hgood p hp (Nat.zero_le _)
  intro fuel
  induction fuel with
  | zero =>
    intro m cache remain k b s hm hgood h
    rcases Nat.eq_zero_or_pos m with rfl | hpos
    · exact done 0 cache remain k b s hgood h
    · have hi : ((m : Int) - 1) ≥ 0 := by omega
      rw [randStringLoop, if_pos hi] at h
      exact absurd h (by simp)
  | succ fuel ih =>
    intro m cache remain k b s hm hgood h
    rcases Nat.eq_zero_or_pos m with rfl | hpos
    · exact done (fuel + 1) cache remain k b s hgood h
    · rw [randStringLoop_step src fuel m cache remain k b hpos] at h
      generalize (if remain = 0 then Int63 src k else cache) = cache1 at h
      generalize (if remain = 0 then letterIdxMax else remain) = remain1 at h
      generalize (if remain = 0 then k + 1 else k) = k1 at h
      split at h
      · have := ih (m - 1) _ _ _ _ s (by simp; omega) ?_ h
        · simpa using this
        · intro p hp hmp
          rw [List.getElem_set]
          split
          · exact List.getElem_mem _
          · exact hgood p (by simpa using hp) (by omega)
      · exact ih m _ _ _ _ s hm hgood h

/-- Partial correctness of `randString`. -/
theorem randString_sound (src : Nat → Nat) (fuel n : Nat) (s : GoString)
    (h : randString src fuel n = some s) :
    s.length = n ∧ ∀ c ∈ s, c ∈ letterBytes := by
  have := randStringLoop_sound src fuel n _ _ _ _ s (by simp) (by
    intro p hp hnp
    simp at hp
    omega) h
  simpa using this

theorem acceptedFrom_succ (src : Nat → Nat) (j N : Nat) :
    acceptedFrom src j (N + 1)
      = (if group src j < letterBytes.length then 1 else 0) + acceptedFrom src (j + 1) N := by
  simp only [acceptedFrom, List.range'_succ, List.countP_cons, decide_eq_true_eq]
  omega

/-- The invariant `LoopAt` is kept by an iteration, and the index it looks at is
group `j`. -/
theorem loopAt_step (src : Nat → Nat) (j cache remain k : Nat)
    (h : LoopAt src j cache remain k) :
    (if remain = 0 then Int63 src k else cache) &&& letterIdxMask = group src j ∧
    LoopAt src (j + 1) ((if remain = 0 then Int63 src k else cache) >>> letterIdxBits)
      ((if remain = 0 then letterIdxMax else remain) - 1) (if remain = 0 then k + 1 else k) := by
  have hmax : letterIdxMax = 10 := by decide
  have hbits : letterIdxBits = 6 := by decide
  simp only [LoopAt, group, hmax, hbits] at h ⊢
  rcases h with ⟨hr, hj, hk⟩ | ⟨hr, hj, hk, hc⟩
  · subst hr hk
    simp only [if_true, hj, Nat.mul_zero, Nat.shiftRight_zero, true_and]
    right
    refine ⟨by omega, by omega, by omega, ?_⟩
    have e1 : (j + 1) / 10 = j / 10 := by omega
    have e2 : (j + 1) % 10 = 1 := by omega
    rw [e1, e2]
  · have hr0 : remain ≠ 0 := by omega
    simp only [if_neg hr0]
    subst hc
    refine ⟨rfl, ?_⟩
    by_cases h9 : j % 10 = 9
    · left
      exact ⟨by omega, by omega, by omega⟩
    · right
      refine ⟨by omega, by omega, by omega, ?_⟩
      have e1 : (j + 1) / 10 = j / 10 := by omega
      have e2 : (j + 1) % 10 = j % 10 + 1 := by omega
      rw [e1, e2, Nat.mul_add, Nat.shiftRight_add]

/-- The loop of `randString` returns within `fuel` iterations exactly when at
least `m = i + 1` of the next `fuel` groups are valid indices. -/
theorem randStringLoop_isSome_iff (src : Nat → Nat) :
    ∀ (fuel j m cache remain k : Nat) (b : List Char),
      LoopAt src j cache remain k →
      ((randStringLoop src fuel ((m : Int) - 1) cache remain k b).isSome
        ↔ m ≤ acceptedFrom src j fuel) := by
  intro fuel
  induction fuel with
  | zero =>
    intro j m cache remain k b _
    rcases Nat.eq_zero_or_pos m with rfl | hpos
    · rw [randStringLoop_done]; simp
    · have hi : ((m : Int) - 1) ≥ 0 := by omega
      rw [randStringLoop, if_pos hi]
      simp [acceptedFrom]
      omega
  | succ fuel ih =>
    intro j m cache remain k b hinv
    rcases Nat.eq_zero_or_pos m with rfl | hpos
    · rw [randStringLoop_done]; simp
    · obtain ⟨hidx, hnext⟩ := loopAt_step src j cache remain k hinv
      rw [randStringLoop_step src fuel m cache remain k b hpos, acceptedFrom_succ]
      generalize (if remain = 0 then Int63 src k else cache) = cache1 at hidx hnext ⊢
      generalize (if remain = 0 then letterIdxMax else remain) = remain1 at hnext ⊢
      generalize (if remain = 0 then k + 1 else k) = k1 at hnext ⊢
      by_cases hacc : cache1 &&& letterIdxMask < letterBytes.length
      · rw [dif_pos hacc, ih (j + 1) (m - 1) _ _ _ _ hnext, if_pos (hidx ▸ hacc)]
        omega
      · rw [dif_neg hacc, ih (j + 1) m _ _ _ _ hnext, if_neg (hidx ▸ hacc)]
        omega

theorem loopAt_init (src : Nat → Nat) : LoopAt src 0 (Int63 src 0) letterIdxMax 1 := by
  right
  exact ⟨by decide, by decide, by decide, by simp⟩

/-- The function `randString(n)` returns within `fuel` iterations exactly when at
least `n` of the first `fuel` groups of the source are valid indices. -/
theorem randString_isSome_iff (src : Nat → Nat) (fuel n : Nat) :
    (randString src fuel n).isSome ↔ n ≤ acceptedFrom src 0 fuel :=
  randStringLoop_isSome_iff src fuel 0 n _ _ _ _ (loopAt_init src)

/-- Once the loop of `randString` has returned, more iterations change nothing. -/
theorem randStringLoop_mono (src : Nat → Nat) :
    ∀ (fuel m cache remain k : Nat) (b s : List Char),
      randStringLoop src fuel ((m : Int) - 1) cache remain k b = some s →
      randStringLoop src (fuel + 1) ((m : Int) - 1) cache remain k b = some s := by
  intro fuel
  induction fuel with
  | zero =>
    intro m cache remain k b s h
    rcases Nat.eq_zero_or_pos m with rfl | hpos
    · rw [randStringLoop_done] at h ⊢; exact h
    · have hi : ((m : Int) - 1) ≥ 0 := by omega
      rw [randStringLoop, if_pos hi] at h
      exact absurd h (by simp)
  | succ fuel ih =>
    intro m cache remain k b s h
    rcases Nat.eq_zero_or_pos m with rfl | hpos
    · rw [randStringLoop_done] at h ⊢; exact h
    · rw [randStringLoop_step src fuel m cache remain k b hpos] at h
      rw [randStringLoop_step src (fuel + 1) m cache remain k b hpos]
      generalize (if remain = 0 then Int63 src k else cache) = cache1 at h ⊢
      generalize (if remain = 0 then letterIdxMax else remain) = remain1 at h ⊢
      generalize (if remain = 0 then k + 1 else k) = k1 at h ⊢
      by_cases hacc : cache1 &&& letterIdxMask < letterBytes.length
      · rw [dif_pos hacc] at h ⊢
        exact ih _ _ _ _ _ s h
      · rw [dif_neg hacc] at h ⊢
        exact ih _ _ _ _ _ s h

theorem randString_mono (src : Nat → Nat) (n fuel fuel1 : Nat) (s : GoString)
    (h : randString src fuel n = some s) (hle : fuel ≤ fuel1) :
    randString src fuel1 n = some s := by
  induction fuel1 with
  | zero =>
    have e : fuel = 0 := by omega
    subst e
    exact h
  | succ f ih =>
    rcases Nat.eq_or_lt_of_le hle with e | hlt
    · subst e; exact h
    · exact randStringLoop_mono src f n _ _ _ _ s (ih (by omega))

theorem acceptedFrom_add (src : Nat → Nat) (A B : Nat) :
    ∀ j, acceptedFrom src j (A + B) = acceptedFrom src j A + acceptedFrom src (j + A) B := by
  induction A with
  | zero => intro j; simp [acceptedFrom]
  | succ A ih =>
    intro j
    have e : A + 1 + B = (A + B) + 1 := by omega
    rw [e, acceptedFrom_succ, acceptedFrom_succ, ih (j + 1)]
    have e2 : j + 1 + A = j + (A + 1) := by omega
    rw [e2]
    omega

/-- The first group of the `k`-th value is its low six bits. -/
theorem group_first (src : Nat → Nat) (k : Nat) : group src (10 * k) = src k % 64 := by
  have hmax : letterIdxMax = 10 := by decide
  have hbits : letterIdxBits = 6 := by decide
  have hmask : letterIdxMask = 2 ^ 6 - 1 := by decide
  have e1 : 10 * k / 10 = k := by omega
  have e2 : 10 * k % 10 = 0 := by omega
  simp only [group, Int63, hmax, hbits, hmask, e1, e2, Nat.mul_zero, Nat.shiftRight_zero,
    Nat.and_pow_two_sub_one_eq_mod]
  omega

/-- A stream of the generator cannot stay on rejected low groups: were the low
six bits 53 or more from `N` on, they would go down by one at least every
`rngTap` words. -/
theorem exists_accepted_after (src : Nat → Nat) (hsrc : IsRngSource src) (N : Nat) :
    ∃ k, N ≤ k ∧ src k % 64 < 53 := by
  by_contra hno
  have hall : ∀ k, N ≤ k → 53 ≤ src k % 64 := by
    intro k hk
    by_contra hlt
    exact hno ⟨k, hk, by omega⟩
  have hrec : ∀ k, src (k + 607) % 64 = (src k % 64 + src (k + 334) % 64) % 64 := by
    intro k
    have h := hsrc k
    simp only [rngLen, rngTap] at h
    have e : 607 - 273 = 334 := by decide
    rw [e] at h
    rw [h, Nat.mod_mod_of_dvd _ (by decide : 64 ∣ 2 ^ 64), Nat.add_mod]
  have key : ∀ t, src (N + 334 + 273 * t) % 64 + t ≤ 63 := by
    intro t
    induction t with
    | zero =>
      have := Nat.mod_lt (src (N + 334 + 273 * 0)) (by decide : 0 < 64)
      omega
    | succ t ih =>
      have h1 := hrec (N + 273 * t)
      have h2 := hall (N + 273 * t) (by omega)
      have h3 := hall (N + 273 * t + 607) (by omega)
      have e1 : N + 273 * t + 334 = N + 334 + 273 * t := by omega
      have e2 : N + 273 * t + 607 = N + 334 + 273 * (t + 1) := by omega
      rw [e1, e2] at h1
      rw [e2] at h3
      have h4 := Nat.mod_lt (src (N + 273 * t)) (by decide : 0 < 64)
      have h5 := hall (N + 334 + 273 * t) (by omega)
      generalize src (N + 273 * t) % 64 = a at h1 h2 h4
      generalize src (N + 334 + 273 * t) % 64 = x at h1 h5 ih
      generalize src (N + 334 + 273 * (t + 1)) % 64 = y at h1 h3
      omega
  have h11 := key 11
  have := hall (N + 334 + 273 * 11) (by omega)
  omega

/-- A stream of the generator has as many accepted groups as one asks for. -/
theorem acceptedFrom_unbounded (src : Nat → Nat) (hsrc : IsRngSource src) :
    ∀ n, ∃ fuel, n ≤ acceptedFrom src 0 fuel := by
  intro n
  induction n with
  | zero => exact ⟨0, Nat.zero_le _⟩
  | succ n ih =>
    obtain ⟨F, hF⟩ := ih
    obtain ⟨k, hk, hacc⟩ := exists_accepted_after src hsrc F
    refine ⟨10 * k + 1, ?_⟩
    have e : 10 * k + 1 = F + ((10 * k - F) + 1) := by omega
    rw [e, acceptedFrom_add, acceptedFrom_add]
    have e2 : 0 + F + (10 * k - F) = 10 * k := by omega
    rw [e2, acceptedFrom_succ, group_first, letterBytes_length, if_pos hacc]
    omega

theorem lagFib_isRngSource (vec : Nat → Nat) : IsRngSource (lagFib vec) := by
  intro k
  have h : ¬ k + rngLen < rngLen := by omega
  have e1 : k + rngLen - rngLen = k := by omega
  have e2 : k + rngLen - rngTap = k + (rngLen - rngTap) := by
    simp only [rngLen, rngTap]
    omega
  rw [lagFib, dif_neg h, e1, e2]

theorem rngStream_isRngSource (vec : Nat → Nat) : IsRngSource (rngStream vec) := by
  intro k
  have h := lagFib_isRngSource vec (k + rngLen)
  have e : k + rngLen + (rngLen - rngTap) = k + (rngLen - rngTap) + rngLen := by omega
  rw [e] at h
  exact h

/-- C3. Token shape: for every `n` and every sequence of values returned by the
random source that `randString` makes with `rand.NewSource`, `randString(n)`
returns (after some number of iterations, and unchanged by further ones) a
string of length exactly `n` whose every character belongs to `letterBytes`;
and `letterBytes` consists of exactly 53 distinct symbols: a-z, A-Z and `-`.
The 6-bit index is used only under the test `idx < len(letterBytes)`. -/
theorem randString_token_shape (src : Nat → Nat) (hsrc : IsRngSource src) (n : Nat) :
    (∃ fuel s, randString src fuel n = some s ∧
      (∀ fuel1, fuel ≤ fuel1 → randString src fuel1 n = some s) ∧
      s.length = n ∧ ∀ c ∈ s, c ∈ letterBytes) ∧
    letterBytes.length = 53 ∧ letterBytes.Nodup ∧
    letterBytes = (List.range' 97 26).map Char.ofNat ++ (List.range' 65 26).map Char.ofNat
      ++ ['-'] := by
  refine ⟨?_, by decide, by decide, by decide⟩
  obtain ⟨fuel, hfuel⟩ := acceptedFrom_unbounded src hsrc n
  have hs := (randString_isSome_iff src fuel n).2 hfuel
  obtain ⟨s, hs⟩ := Option.isSome_iff_exists.1 hs
  obtain ⟨hlen, hchars⟩ := randString_sound src fuel n s hs
  exact ⟨fuel, s, hs, fun fuel1 hle => randString_mono src n fuel fuel1 s hs hle, hlen, hchars⟩

/-- Witness of `randString_token_shape`: a token of twelve characters from the
words returned by the generator over a filled ring. -/
theorem randString_token_shape_witness :
    IsRngSource (rngStream sampleVec) ∧
    ∃ fuel s, randString (rngStream sampleVec) fuel 12 = some s ∧
      (∀ fuel1, fuel ≤ fuel1 → randString (rngStream sampleVec) fuel1 12 = some s) ∧
      s.length = 12 ∧ ∀ c ∈ s, c ∈ letterBytes :=
  ⟨rngStream_isRngSource sampleVec,
    (randString_token_shape (rngStream sampleVec) (rngStream_isRngSource sampleVec) 12).1⟩

/-! ## The intake service -/

/-- C6. Missing-parameter rejection: a request whose query lacks `tel` or lacks
`msg` makes `handler` only log the missing parameter, so no enqueue is started
and nothing is written to the response; a request that has both parameters
makes `handler` start exactly one enqueue, whose data is the first `tel` value,
a space, and the first `msg` value. -/
theorem handler_enqueues_iff_both_present (conf : RedisConf)
    (query : GoString → Option (List GoString)) :
    ((query "tel".toList = none ∨ query "msg".toList = none) →
      handler conf query = [.logMissing "tel".toList] ∨
      handler conf query = [.logMissing "msg".toList]) ∧
    (∀ t ts m ms, query "tel".toList = some (t :: ts) → query "msg".toList = some (m :: ms) →
      handler conf query
        = [.goPutQueue (conf.RedisHost ++ [':'] ++ conf.RedisPort) conf.RedisQueue
            (t ++ [' '] ++ m)]) := by
  constructor
  · intro h
    by_cases htel : (!(query "tel".toList).isSome || decide (((query "tel".toList).getD []).length < 1))
        = true
    · left
      simp only [handler, htel, if_true]
    · right
      rcases h with h | h
      · exact absurd (by simp only [h]; rfl) htel
      · simp only [handler, htel, h]
        rfl
  · intro t ts m ms ht hm
    simp only [handler, ht, hm]
    rfl

/-- Witness of `handler_enqueues_iff_both_present`: a request without `tel` and a
request with both parameters. -/
theorem handler_enqueues_iff_both_present_witness :
    (queryMsgOnly "Hello".toList "tel".toList = none ∧
      handler sampleConf (queryMsgOnly "Hello".toList) = [.logMissing "tel".toList]) ∧
    (queryOf "5551234".toList "Hello".toList "tel".toList = some ["5551234".toList] ∧
      queryOf "5551234".toList "Hello".toList "msg".toList = some ["Hello".toList] ∧
      handler sampleConf (queryOf "5551234".toList "Hello".toList)
        = [.goPutQueue "localhost:6379".toList "nagsms".toList "5551234 Hello".toList]) :=
  ⟨⟨by decide, by
      have h := (handler_enqueues_iff_both_present sampleConf
        (queryMsgOnly "Hello".toList)).1 (Or.inl (by decide))
      rcases h with h | h
      · exact h
      · exact absurd h (by decide)⟩,
    by decide, by decide,
    (handler_enqueues_iff_both_present sampleConf (queryOf "5551234".toList "Hello".toList)).2
      "5551234".toList [] "Hello".toList [] (by decide) (by decide)⟩

/-- C8 (as stated, refuted). The request `?tel=555 1234&msg=Hi` is accepted by
`handler`; `putQueue` pushes the record `"aaaaaaaaaaaa 555 1234 Hi"`, whose
field 1 is `"555"` and not the `tel` value of the request, and which the worker
decodes to destination `"555"` and body `"1234 Hi"`. -/
theorem intake_accepts_destination_with_space :
    handler sampleConf (queryOf "555 1234".toList "Hi".toList)
      = [.goPutQueue "localhost:6379".toList "nagsms".toList "555 1234 Hi".toList] ∧
    (putQueue (fun _ => 0) 12 true "555 1234 Hi".toList World.init).map World.trace
      = some [.poolGet, .push "aaaaaaaaaaaa 555 1234 Hi".toList true, .logDebug, .logDebug,
          .connClose] ∧
    ' ' ∈ "555 1234".toList ∧
    (strings.Split "aaaaaaaaaaaa 555 1234 Hi".toList ' ').get? 1 = some "555".toList ∧
    (strings.Split "aaaaaaaaaaaa 555 1234 Hi".toList ' ').get? 1 ≠ some "555 1234".toList ∧
    redisPopDecode "aaaaaaaaaaaa 555 1234 Hi".toList = .ok ("555".toList, "1234 Hi".toList) :=
  ⟨by decide, by decide, by decide, by decide, by decide, rfl⟩

/-- C8 (amended). Envelope invariant at the intake: for every request that
`handler` accepts, the record that `putQueue` pushes is the token, a space, the
`tel` value, a space and the `msg` value; the token contains no space and is
field 0 of the pushed record; and when the `tel` value contains no space, field
1 of the pushed record is the `tel` value and the worker decodes the record to
exactly the `tel` and `msg` values. -/
theorem intake_envelope_fields (conf : RedisConf) (query : GoString → Option (List GoString))
    (src : Nat → Nat) (fuel : Nat) (pushOk : Bool) (w : World)
    (tel msg rnd : GoString) (ts ms : List GoString)
    (htel : query "tel".toList = some (tel :: ts)) (hmsg : query "msg".toList = some (msg :: ms))
    (hrnd : randString src fuel 12 = some rnd) :
    handler conf query
      = [.goPutQueue (conf.RedisHost ++ [':'] ++ conf.RedisPort) conf.RedisQueue
          (handlerData tel msg)] ∧
    (∃ w1, putQueue src fuel pushOk (handlerData tel msg) w = some w1 ∧
      w1.leased = w.leased ∧
      Event.push (stringdata rnd (handlerData tel msg)) pushOk ∈ w1.trace) ∧
    rnd.length = 12 ∧ ' ' ∉ rnd ∧
    (strings.Split (stringdata rnd (handlerData tel msg)) ' ').head? = some rnd ∧
    (' ' ∉ tel →
      (strings.Split (stringdata rnd (handlerData tel msg)) ' ').get? 1 = some tel ∧
      redisPopDecode (stringdata rnd (handlerData tel msg)) = .ok (tel, msg)) := by
  obtain ⟨hlen, hchars⟩ := randString_sound src fuel 12 rnd hrnd
  have hsp : ' ' ∉ rnd := fun h => space_not_in_letterBytes (hchars _ h)
  have hsplit : strings.Split (stringdata rnd (handlerData tel msg)) ' '
      = rnd :: strings.Split (handlerData tel msg) ' ' := by
    simp only [stringdata, List.append_assoc, List.singleton_append]
    rw [split_append_sep rnd _ ' ' hsp]
  refine ⟨by simp only [handler, htel, hmsg]; rfl, ?_, hlen, hsp, by rw [hsplit]; rfl, ?_⟩
  · simp only [putQueue, hrnd]
    refine ⟨_, rfl, ?_, ?_⟩
    · cases pushOk <;> simp [World.close, World.emit, World.get]
    · cases pushOk <;> simp [World.close, World.emit, World.get]
  · intro hdst
    have hsplit2 : strings.Split (handlerData tel msg) ' ' = tel :: strings.Split msg ' ' := by
      simp only [handlerData, List.append_assoc, List.singleton_append]
      rw [split_append_sep tel _ ' ' hdst]
    refine ⟨by rw [hsplit, hsplit2]; rfl, ?_⟩
    exact (decode_record rnd tel msg hsp hdst)

/-- Witness of `intake_envelope_fields`: the request `?tel=5551234&msg=Server down now`
with a token drawn from a source with rejected groups. -/
theorem intake_envelope_fields_witness :
    queryOf "5551234".toList "Server down now".toList "tel".toList
      = some ["5551234".toList] ∧
    queryOf "5551234".toList "Server down now".toList "msg".toList
      = some ["Server down now".toList] ∧
    randString sampleSrc 16 12 = some "aA-aaaaaaA-a".toList ∧
    ' ' ∉ "aA-aaaaaaA-a".toList ∧
    (strings.Split (stringdata "aA-aaaaaaA-a".toList
      (handlerData "5551234".toList "Server down now".toList)) ' ').get? 1
      = some "5551234".toList ∧
    redisPopDecode (stringdata "aA-aaaaaaA-a".toList
      (handlerData "5551234".toList "Server down now".toList))
      = .ok ("5551234".toList, "Server down now".toList) :=
  have h := intake_envelope_fields sampleConf
    (queryOf "5551234".toList "Server down now".toList) sampleSrc 16 true World.init
    "5551234".toList "Server down now".toList "aA-aaaaaaA-a".toList [] []
    (by decide) (by decide) (by decide)
  ⟨by decide, by decide, by decide, h.2.2.2.1, (h.2.2.2.2.2 (by decide)).1,
    (h.2.2.2.2.2 (by decide)).2⟩

end Nagsms
